import Mathlib

/-!
# Verification of the embex Index & Retrieval Engine

Shallow embedding of the core components of the `embex` repository:

* `Embex.chunk_content`   — `src/embex/core/chunker.py`, `chunk_content`
* `Embex.snapshot_file`, `Embex.restore_to_version`, `Embex.get_snapshot`,
  `Embex.get_latest_version`, `Embex.list_files_in_folder`
                          — `src/embex/core/history_store.py`, `HistoryStore`
* `Embex.ask`             — `src/embex/core/rag.py`, `ask` / `_call_zai`
* `Embex.handleEvent`     — `src/embex/core/watcher.py`, `EmbexEventHandler`

Machine integers do not occur (Python integers are unbounded); SQLite rows are
modelled as Lean structures and tables as lists of rows.  The SHA-256 content
hash is an opaque parameter `hash : String → String` of every operation that
uses it, since no claim depends on the digest algorithm itself.
-/

namespace Embex

/-! ## Chunker (`src/embex/core/chunker.py`)

A chunk is the Python tuple `(chunk_text, chunk_index, start_line, end_line)`;
`start_line`/`end_line` are 1-based and inclusive. -/

structure Chunk where
  text : String
  index : Nat
  start_line : Nat
  end_line : Nat
deriving DecidableEq, Repr

/-- Characters stripped by Python `str.strip()` (ASCII and Latin-1 whitespace;
the rarer Unicode space characters never occur in the inputs of any claim). -/
def isPySpace (c : Char) : Bool :=
  c = ' ' || c = '\t' || c = '\n' || c = '\x0d' || c = '\x0b' || c = '\x0c' ||
  c = '\x1c' || c = '\x1d' || c = '\x1e' || c = '\x1f' || c = '\x85' || c = '\xa0'

/-- `content.strip()` is empty, i.e. every character is whitespace.  Models the
Python test `not content.strip()`. -/
def isPyBlank (content : String) : Bool :=
  content.toList.all isPySpace

/-- Single characters treated as line boundaries by Python `str.splitlines`
(`\r` and the pair `\r\n` are handled separately in `splitlinesAux`). -/
def isLineBreakChar (c : Char) : Bool :=
  c = '\n' || c = '\x0b' || c = '\x0c' || c = '\x1c' || c = '\x1d' ||
  c = '\x1e' || c = '\x85' || c = '\u2028' || c = '\u2029'

/-- Accumulator-based model of Python `str.splitlines(keepends=True)`.
`acc` holds the (reversed) characters of the current line.  The fuel argument
(instantiated with the length of the character list, which bounds the number
of steps because every step consumes at least one character) keeps the
recursion structural, so that the definition evaluates inside the kernel. -/
def splitlinesAux : Nat → List Char → List Char → List (List Char)
  | _, [], acc => if acc.isEmpty then [] else [acc.reverse]
  | 0, _ :: _, _ => []
  | fuel + 1, c :: rest, acc =>
    if c = '\x0d' then
      if rest.head? = some '\n' then
        (acc.reverse ++ ['\x0d', '\n']) :: splitlinesAux fuel rest.tail []
      else (acc.reverse ++ ['\x0d']) :: splitlinesAux fuel rest []
    else if isLineBreakChar c then (acc.reverse ++ [c]) :: splitlinesAux fuel rest []
    else splitlinesAux fuel rest (c :: acc)

/-- Python `content.splitlines(keepends=True)`. -/
def pySplitlines (content : String) : List String :=
  (splitlinesAux content.toList.length content.toList []).map (fun l => String.mk l)

/-- Number of lines of a content string, `len(content.splitlines(keepends=True))`. -/
def lineCount (content : String) : Nat :=
  (pySplitlines content).length

/-- Python `"".join(lines[a:b])`. -/
def joinSlice (lines : List String) (a b : Nat) : String :=
  String.join ((lines.drop a).take (b - a))

/-- The `while start < total` loop of `chunk_content`, with an explicit fuel
argument (`fuel` is instantiated with `total`; the loop runs at most `total`
iterations because `start` grows by `step = max(chunk_size - overlap, 1) ≥ 1`
per iteration).  The inner two-element list is the Python branch

    if start < total and (total - start) <= overlap: append tiny chunk; break

which is checked after `start += step`, so it is placed after the chunk of the
current iteration. -/
def chunkLoop (lines : List String) (cs ov : Nat) : Nat → Nat → Nat → List Chunk
  | 0, _, _ => []
  | fuel + 1, idx, start =>
    if start < lines.length then
      if start + max (cs - ov) 1 < lines.length ∧
          lines.length - (start + max (cs - ov) 1) ≤ ov then
        [⟨joinSlice lines start (min (start + cs) lines.length), idx, start + 1,
            min (start + cs) lines.length⟩,
         ⟨joinSlice lines (start + max (cs - ov) 1) lines.length, idx + 1,
            start + max (cs - ov) 1 + 1, lines.length⟩]
      else
        ⟨joinSlice lines start (min (start + cs) lines.length), idx, start + 1,
            min (start + cs) lines.length⟩
          :: chunkLoop lines cs ov fuel (idx + 1) (start + max (cs - ov) 1)
    else []

/-- `chunk_content(content, chunk_size, overlap)` from
`src/embex/core/chunker.py`.  Mirrors the two early returns
(`if not content or not content.strip()` and `if total == 0`) and then the
window loop. -/
def chunk_content (content : String) (cs ov : Nat) : List Chunk :=
  if content = "" ∨ isPyBlank content = true then []
  else if (pySplitlines content).length = 0 then []
  else chunkLoop (pySplitlines content) cs ov (pySplitlines content).length 0 0

/-- Number of line numbers shared by the (1-based, inclusive) line ranges of
two chunks. -/
def sharedCount (c1 c2 : Chunk) : Nat :=
  min c1.end_line c2.end_line + 1 - max c1.start_line c2.start_line

/-- Every adjacent pair of chunks overlaps in exactly `ov` lines, except that
the second member of the final pair may instead be the merged trailing chunk
(a chunk that ends at the last line and spans at most `ov` lines); chunk
starts are strictly increasing. -/
def PairsOk (ov total : Nat) : List Chunk → Prop
  | c1 :: c2 :: rest =>
    (sharedCount c1 c2 = ov ∨
      (rest = [] ∧ c2.end_line = total ∧ c2.end_line + 1 - c2.start_line ≤ ov)) ∧
    c1.start_line < c2.start_line ∧ PairsOk ov total (c2 :: rest)
  | _ => True

/-- Decidable check used to exhibit the trailing-chunk behaviour: some chunk
other than the first spans at most `ov` lines and lies entirely inside the
line range of its predecessor. -/
def anyTinyContained (ov : Nat) (chunks : List Chunk) : Bool :=
  (chunks.zip chunks.tail).any (fun pc =>
    decide (pc.2.end_line + 1 - pc.2.start_line ≤ ov ∧
            pc.1.start_line ≤ pc.2.start_line ∧ pc.2.end_line ≤ pc.1.end_line))

/-- `chunkLoop` yields no chunk once `start` has reached the end. -/
lemma chunkLoop_of_le (lines : List String) (cs ov fuel idx start : Nat)
    (h : lines.length ≤ start) : chunkLoop lines cs ov fuel idx start = [] := by
  cases fuel with
  | zero => rfl
  | succ n => simp [chunkLoop, Nat.not_lt.mpr h]
/-- Main invariant of the chunk loop, for `overlap < chunk_size`: the produced
list is nonempty, its head starts at `start + 1` and ends at
`min (start + chunk_size) total`, the chunk ranges cover exactly the lines
`start + 1 .. total`, and adjacent chunks overlap in exactly `overlap` lines
except possibly for a final merged trailing chunk. -/
lemma chunkLoop_spec (lines : List String) (cs ov : Nat) (hov : ov < cs) :
    ∀ fuel start idx, start < lines.length → lines.length - start ≤ fuel →
    ∃ c rest,
      chunkLoop lines cs ov fuel idx start = c :: rest ∧
      c.start_line = start + 1 ∧
      c.end_line = min (start + cs) lines.length ∧
      (∀ n, (start + 1 ≤ n ∧ n ≤ lines.length) ↔
        ∃ d ∈ c :: rest, d.start_line ≤ n ∧ n ≤ d.end_line) ∧
      PairsOk ov lines.length (c :: rest) := by
  intro fuel
  induction fuel with
  | zero => intro start idx hs hf; omega
  | succ fuel ih =>
    intro start idx hs hf
    have hstep : max (cs - ov) 1 = cs - ov := by omega
    by_cases hbr : start + max (cs - ov) 1 < lines.length ∧
        lines.length - (start + max (cs - ov) 1) ≤ ov
    · -- tiny trailing chunk branch: output is a two-element list
      have heq : chunkLoop lines cs ov (fuel + 1) idx start =
          [⟨joinSlice lines start (min (start + cs) lines.length), idx, start + 1,
              min (start + cs) lines.length⟩,
           ⟨joinSlice lines (start + max (cs - ov) 1) lines.length, idx + 1,
              start + max (cs - ov) 1 + 1, lines.length⟩] := by
        simp only [chunkLoop]
        rw [if_pos hs, if_pos hbr]
      -- in this branch the head chunk already reaches the last line
      have hend : min (start + cs) lines.length = lines.length := by omega
      refine ⟨_, _, heq, rfl, rfl, ?_, ?_⟩
      · intro n
        constructor
        · intro hn
          exact ⟨_, List.mem_cons_self _ _, by simpa [hend] using hn⟩
        · rintro ⟨d, hd, hd1, hd2⟩
          rcases List.mem_cons.mp hd with h | h
          · subst h; simp at hd1 hd2; omega
          · rcases List.mem_singleton.mp h with rfl
            simp at hd1 hd2; omega
      · refine ⟨Or.inr ⟨rfl, rfl, ?_⟩, ?_, trivial⟩
        · show lines.length + 1 - (start + max (cs - ov) 1 + 1) ≤ ov
          omega
        · show start + 1 < start + max (cs - ov) 1 + 1
          omega
    · by_cases hnext : start + max (cs - ov) 1 < lines.length
      · -- recursive case: the remaining lines exceed the overlap
        have hrem : ov < lines.length - (start + max (cs - ov) 1) := by
          rcases Nat.lt_or_ge ov (lines.length - (start + max (cs - ov) 1)) with h | h
          · exact h
          · exact absurd ⟨hnext, h⟩ hbr
        obtain ⟨c2, rest2, heq2, hs2, he2, hcov2, hpairs2⟩ :=
          ih (start + max (cs - ov) 1) (idx + 1) hnext (by omega)
        have heq : chunkLoop lines cs ov (fuel + 1) idx start =
            ⟨joinSlice lines start (min (start + cs) lines.length), idx, start + 1,
                min (start + cs) lines.length⟩ :: c2 :: rest2 := by
          simp only [chunkLoop]
          rw [if_pos hs, if_neg hbr, heq2]
        -- the head chunk is full-size: it cannot reach the last line
        have hfull : min (start + cs) lines.length = start + cs := by omega
        refine ⟨_, _, heq, rfl, rfl, ?_, ?_⟩
        · intro n
          constructor
          · intro hn
            by_cases hc : n ≤ start + cs
            · exact ⟨_, List.mem_cons_self _ _, by simp [hfull]; omega⟩
            · obtain ⟨d, hd, hdd⟩ := (hcov2 n).mp (by omega)
              exact ⟨d, List.mem_cons_of_mem _ hd, hdd⟩
          · rintro ⟨d, hd, hd1, hd2⟩
            rcases List.mem_cons.mp hd with h | h
            · subst h; simp [hfull] at hd1 hd2; omega
            · have := (hcov2 n).mpr ⟨d, h, hd1, hd2⟩
              omega
        · have hshared : sharedCount
              ⟨joinSlice lines start (min (start + cs) lines.length), idx, start + 1,
                min (start + cs) lines.length⟩ c2 = ov := by
            simp only [sharedCount, hs2, he2, hfull]
            omega
          refine ⟨Or.inl hshared, ?_, hpairs2⟩
          rw [hs2]
          show start + 1 < start + max (cs - ov) 1 + 1
          omega
      · -- loop exit: `start + step` passed the end, single chunk reaching it
        have heq : chunkLoop lines cs ov (fuel + 1) idx start =
            [⟨joinSlice lines start (min (start + cs) lines.length), idx, start + 1,
                min (start + cs) lines.length⟩] := by
          simp only [chunkLoop]
          rw [if_pos hs, if_neg hbr,
            chunkLoop_of_le lines cs ov fuel (idx + 1) _ (by omega)]
        have hend : min (start + cs) lines.length = lines.length := by omega
        refine ⟨_, _, heq, rfl, rfl, ?_, trivial⟩
        intro n
        constructor
        · intro hn
          exact ⟨_, List.mem_cons_self _ _, by simpa [hend] using hn⟩
        · rintro ⟨d, hd, hd1, hd2⟩
          rcases List.mem_singleton.mp hd with rfl
          simp [hend] at hd1 hd2; omega

/-- `splitlinesAux` never returns the empty list when there is input left (and
enough fuel) or a pending accumulator. -/
lemma splitlinesAux_ne_nil :
    ∀ (fuel : Nat) (l acc : List Char), l.length ≤ fuel → l ≠ [] ∨ acc ≠ [] →
    splitlinesAux fuel l acc ≠ [] := by
  intro fuel
  induction fuel with
  | zero =>
    intro l acc hlen h
    have hl : l = [] := by
      cases l with
      | nil => rfl
      | cons c rest => simp at hlen
    subst hl
    rcases h with h | h
    · exact absurd rfl h
    · simp [splitlinesAux, h]
  | succ fuel ih =>
    intro l acc hlen h
    cases l with
    | nil =>
      rcases h with h | h
      · exact absurd rfl h
      · simp [splitlinesAux, h]
    | cons c rest =>
      by_cases hc : c = '\x0d'
      · subst hc
        by_cases hc2 : rest.head? = some '\n'
        · simp [splitlinesAux, hc2]
        · simp [splitlinesAux, hc2]
      · by_cases hbrk : isLineBreakChar c = true
        · simp [splitlinesAux, hc, hbrk]
        · have heq : splitlinesAux (fuel + 1) (c :: rest) acc =
              splitlinesAux fuel rest (c :: acc) := by
            simp [splitlinesAux, hc, hbrk]
          rw [heq]
          exact ih rest (c :: acc) (by simp at hlen; omega) (Or.inr (by simp))

lemma pySplitlines_ne_nil (content : String) (h : content ≠ "") :
    pySplitlines content ≠ [] := by
  have hlist : content.toList ≠ [] := by
    intro hl
    apply h
    cases content with
    | mk data =>
      simp only [String.toList] at hl
      simp [hl]
  simp only [pySplitlines, ne_eq, List.map_eq_nil_iff]
  exact splitlinesAux_ne_nil _ _ _ le_rfl (Or.inl hlist)

/-- C1: evaluation of `chunk_content` on a 7-line file with `chunk_size = 5`,
`overlap = 3`.  After the full-size window `1–5` and the window `3–7`, the
final window starts at line 5 and spans `7 - 4 = 3 ≤ overlap` lines; the code
appends it as its own chunk `5–7` (then breaks), so the output contains a
trailing chunk of at most `overlap` lines lying entirely inside the previous
chunk's range `3–7` — the behaviour the inline comment
(`Avoid creating a tiny trailing chunk that is purely overlap`) says is
avoided. -/
theorem chunker_emits_overlap_only_trailing_chunk :
    chunk_content "l1\nl2\nl3\nl4\nl5\nl6\nl7" 5 3 =
      [⟨"l1\nl2\nl3\nl4\nl5\n", 0, 1, 5⟩,
       ⟨"l3\nl4\nl5\nl6\nl7", 1, 3, 7⟩,
       ⟨"l5\nl6\nl7", 2, 5, 7⟩] ∧
    anyTinyContained 3 (chunk_content "l1\nl2\nl3\nl4\nl5\nl6\nl7" 5 3) = true := by
  decide

/-- C6 counterexample: for the whitespace-only content `"\n"` the chunker
returns no chunks, yet `lineCount "\n" = 1`, so the chunk ranges do not union
to `1..lineCount` — line 1 is covered by no chunk. -/
theorem chunk_union_whitespace_counterexample :
    chunk_content "\n" 2 1 = [] ∧ 1 ≤ lineCount "\n" ∧
    ¬ ∃ c ∈ chunk_content "\n" 2 1, c.start_line ≤ 1 ∧ 1 ≤ c.end_line := by
  decide

/-- C6 (amended): for every content that is not whitespace-only and parameters
with `overlap < chunk_size`, the chunks' line ranges union, in order, to
exactly `1..lineCount content` with no gaps, and consecutive chunks share
exactly `overlap` lines except possibly for the merged trailing chunk. -/
theorem chunk_content_union_and_overlap (content : String) (cs ov : Nat)
    (hov : ov < cs) (hne : isPyBlank content = false) :
    (∀ n, (1 ≤ n ∧ n ≤ lineCount content) ↔
      ∃ c ∈ chunk_content content cs ov, c.start_line ≤ n ∧ n ≤ c.end_line) ∧
    PairsOk ov (lineCount content) (chunk_content content cs ov) := by
  have hcne : content ≠ "" := by
    intro h0
    rw [h0] at hne
    simp [isPyBlank] at hne
  have hlines := pySplitlines_ne_nil content hcne
  have htot : 0 < (pySplitlines content).length := List.length_pos.mpr hlines
  obtain ⟨c, rest, heq, hsl, hel, hcov, hpairs⟩ :=
    chunkLoop_spec (pySplitlines content) cs ov hov
      (pySplitlines content).length 0 0 htot (by omega)
  have hcc : chunk_content content cs ov = c :: rest := by
    unfold chunk_content
    rw [if_neg, if_neg, heq]
    · omega
    · push_neg
      exact ⟨hcne, by simp [hne]⟩
  constructor
  · intro n
    rw [hcc]
    simpa [lineCount] using hcov n
  · rw [hcc]
    exact hpairs

/-- C6 witness: the amended coverage/overlap theorem applied to the concrete
content `"a\nb\nc\nd"` with `chunk_size = 2`, `overlap = 1`. -/
theorem chunk_content_union_and_overlap_witness :
    (1 < 2 ∧ isPyBlank "a\nb\nc\nd" = false) ∧
    ((∀ n, (1 ≤ n ∧ n ≤ lineCount "a\nb\nc\nd") ↔
      ∃ c ∈ chunk_content "a\nb\nc\nd" 2 1, c.start_line ≤ n ∧ n ≤ c.end_line) ∧
     PairsOk 1 (lineCount "a\nb\nc\nd") (chunk_content "a\nb\nc\nd" 2 1)) :=
  ⟨⟨by decide, by decide⟩,
    chunk_content_union_and_overlap "a\nb\nc\nd" 2 1 (by decide) (by decide)⟩

/-! ## History store (`src/embex/core/history_store.py`)

The SQLite tables `snapshots` and `file_registry` are modelled as lists of
rows; the `UNIQUE(file_path, version)` constraint of the `snapshots` table is
modelled by `insertSnapshot`, which fails (as the Python `INSERT` raises
`sqlite3.IntegrityError`) when a row with the same key is already present.
`SELECT ... WHERE` single-row lookups become `List.find?`.  The SHA-256
checksum `_checksum` is an opaque parameter `hash`; `int(time.time())` is the
parameter `now`. -/

structure SnapshotRow where
  file_path : String
  version : Nat
  content : String
  timestamp : Nat
  checksum : String
  message : Option String
deriving DecidableEq, Repr

structure RegistryRow where
  file_path : String
  current_version : Nat
  first_seen : Nat
  last_modified : Nat
  language : String
  folder : String
deriving DecidableEq, Repr

structure HistoryDB where
  snapshots : List SnapshotRow
  registry : List RegistryRow
deriving DecidableEq, Repr

/-- `SELECT ... FROM snapshots WHERE file_path = ? AND version = ?`. -/
def findSnapshot (db : HistoryDB) (p : String) (v : Nat) : Option SnapshotRow :=
  db.snapshots.find? (fun s => s.file_path == p && s.version == v)

/-- `SELECT ... FROM file_registry WHERE file_path = ?`. -/
def findRegistry (db : HistoryDB) (p : String) : Option RegistryRow :=
  db.registry.find? (fun r => r.file_path == p)

/-- `UPDATE file_registry SET current_version = ?, last_modified = ? WHERE
file_path = ?`. -/
def updateRegistry (db : HistoryDB) (p : String) (nv now : Nat) : HistoryDB :=
  { db with registry := db.registry.map (fun r =>
      if r.file_path == p then
        { r with current_version := nv, last_modified := now } else r) }

/-- Result of `snapshot_file`: either the returned version together with the
committed database, or the `sqlite3.IntegrityError` raised by the snapshot
`INSERT` when `(file_path, version)` already exists.  In the error case the
carried database is the connection's uncommitted state at the raise (registry
already updated, snapshot table untouched); since `commit()` is never reached,
no snapshot row is written. -/
inductive SnapResult where
  | ok (version : Nat) (db : HistoryDB)
  | integrityError (db : HistoryDB)
deriving DecidableEq, Repr

/-- `INSERT INTO snapshots ...` under the `UNIQUE(file_path, version)`
constraint. -/
def insertSnapshot (db : HistoryDB) (p : String) (nv : Nat)
    (content cs : String) (now : Nat) (message : Option String) : SnapResult :=
  if (findSnapshot db p nv).isSome then SnapResult.integrityError db
  else SnapResult.ok nv
    { db with snapshots := db.snapshots ++ [⟨p, nv, content, now, cs, message⟩] }

/-- `HistoryStore.snapshot_file` from `src/embex/core/history_store.py`. -/
def snapshot_file (hash : String → String) (now : Nat) (db : HistoryDB)
    (p content language folder : String) (message : Option String) : SnapResult :=
  match findRegistry db p with
  | some row =>
    match findSnapshot db p row.current_version with
    | some snap =>
      if snap.checksum == hash content then SnapResult.ok row.current_version db
      else insertSnapshot (updateRegistry db p (row.current_version + 1) now) p
        (row.current_version + 1) content (hash content) now message
    | none =>
      insertSnapshot (updateRegistry db p (row.current_version + 1) now) p
        (row.current_version + 1) content (hash content) now message
  | none =>
    insertSnapshot { db with registry := db.registry ++ [⟨p, 1, now, now, language, folder⟩] }
      p 1 content (hash content) now message

/-- `HistoryStore.get_snapshot`. -/
def get_snapshot (db : HistoryDB) (p : String) (v : Nat) : Option String :=
  (findSnapshot db p v).map (fun s => s.content)

/-- `HistoryStore.get_latest_version` (0 if the file is untracked). -/
def get_latest_version (db : HistoryDB) (p : String) : Nat :=
  match findRegistry db p with
  | some r => r.current_version
  | none => 0

/-- `HistoryStore.restore_to_version`: `False` if the snapshot does not exist,
otherwise rewinds the registry's `current_version` pointer (deleting
nothing). -/
def restore_to_version (now : Nat) (db : HistoryDB) (p : String) (v : Nat) :
    Bool × HistoryDB :=
  if (findSnapshot db p v).isSome then (true, updateRegistry db p v now)
  else (false, db)

/-- Well-formedness of the snapshot table: every stored checksum is the hash
of the stored content (true of every row written by `snapshot_file`). -/
def ChecksumsOk (hash : String → String) (db : HistoryDB) : Prop :=
  ∀ s ∈ db.snapshots, s.checksum = hash s.content

lemma find?_append_some {α : Type} (l : List α) (a : α) (pred : α → Bool)
    (hl : l.find? pred = none) (ha : pred a = true) :
    (l ++ [a]).find? pred = some a := by
  induction l with
  | nil => simp [List.find?, ha]
  | cons b l ih =>
    have hb : pred b = false := by
      cases hpb : pred b with
      | false => rfl
      | true => rw [List.find?_cons_of_pos _ hpb] at hl; exact absurd hl (by simp)
    rw [List.find?_cons_of_neg _ (by simp [hb])] at hl
    rw [List.cons_append, List.find?_cons_of_neg _ (by simp [hb])]
    exact ih hl
/-- The registry `UPDATE` commutes with the registry lookup for the same
path. -/
lemma find?_map_update (l : List RegistryRow) (p : String) (nv now : Nat) :
    (l.map (fun r => if r.file_path == p then
      { r with current_version := nv, last_modified := now } else r)).find?
        (fun r => r.file_path == p) =
    (l.find? (fun r => r.file_path == p)).map (fun r =>
      { r with current_version := nv, last_modified := now }) := by
  induction l with
  | nil => rfl
  | cons r l ih =>
    cases hr : (r.file_path == p) with
    | true =>
      have hru : (fun x : RegistryRow => x.file_path == p)
          ({ r with current_version := nv, last_modified := now }) = true := hr
      rw [List.map_cons, if_pos hr,
        @List.find?_cons_of_pos _ (fun x : RegistryRow => x.file_path == p) _ _ hru,
        @List.find?_cons_of_pos _ (fun x : RegistryRow => x.file_path == p) r l hr]
      rfl
    | false =>
      have hrf : ¬ (fun x : RegistryRow => x.file_path == p) r = true := by simp [hr]
      rw [List.map_cons, if_neg (by simp [hr]),
        @List.find?_cons_of_neg _ (fun x : RegistryRow => x.file_path == p) _ _ (by exact hrf),
        @List.find?_cons_of_neg _ (fun x : RegistryRow => x.file_path == p) r l hrf]
      exact ih

lemma findRegistry_updateRegistry (db : HistoryDB) (p : String) (nv now : Nat) :
    findRegistry (updateRegistry db p nv now) p =
    (findRegistry db p).map (fun r =>
      { r with current_version := nv, last_modified := now }) :=
  find?_map_update db.registry p nv now

lemma findSnapshot_updateRegistry (db : HistoryDB) (p : String) (nv now : Nat)
    (q : String) (v : Nat) :
    findSnapshot (updateRegistry db p nv now) q v = findSnapshot db q v := rfl

/-- A successful `INSERT` means the key was free; the new row is appended. -/
lemma insertSnapshot_ok (db2 : HistoryDB) (p : String) (nv : Nat)
    (content cs : String) (now : Nat) (message : Option String)
    (v : Nat) (db1 : HistoryDB)
    (h : insertSnapshot db2 p nv content cs now message = SnapResult.ok v db1) :
    v = nv ∧ findSnapshot db2 p nv = none ∧
    db1 = { db2 with snapshots := db2.snapshots ++ [⟨p, nv, content, now, cs, message⟩] } := by
  unfold insertSnapshot at h
  by_cases hdup : (findSnapshot db2 p nv).isSome
  · rw [if_pos hdup] at h
    exact absurd h (by simp)
  · rw [if_neg hdup] at h
    simp only [SnapResult.ok.injEq] at h
    exact ⟨h.1.symm, Option.not_isSome_iff_eq_none.mp hdup, h.2.symm⟩

/-- Post-state of the tracked `INSERT` path of `snapshot_file` (registry row
present, version advanced to `current_version + 1`). -/
lemma snapshot_insert_tracked (now : Nat) (db : HistoryDB)
    (p content cs : String) (message : Option String) (row : RegistryRow)
    (v : Nat) (db1 : HistoryDB)
    (hreg : findRegistry db p = some row)
    (h : insertSnapshot (updateRegistry db p (row.current_version + 1) now) p
      (row.current_version + 1) content cs now message = SnapResult.ok v db1) :
    (∃ row1, findRegistry db1 p = some row1 ∧ row1.current_version = v) ∧
    (∃ s, findSnapshot db1 p v = some s ∧ s.checksum = cs) ∧
    (v = get_latest_version db p + 1 ∧
      db1.snapshots = db.snapshots ++ [⟨p, v, content, now, cs, message⟩]) := by
  obtain ⟨hv, hnone, hdb1⟩ := insertSnapshot_ok _ _ _ _ _ _ _ _ _ h
  subst hv
  subst hdb1
  refine ⟨?_, ?_, ?_, ?_⟩
  · refine ⟨({ row with current_version := row.current_version + 1, last_modified := now } : RegistryRow), ?_, rfl⟩
    show findRegistry (updateRegistry db p (row.current_version + 1) now) p = _
    rw [findRegistry_updateRegistry, hreg]
    rfl
  · refine ⟨(⟨p, row.current_version + 1, content, now, cs, message⟩ : SnapshotRow),
      ?_, rfl⟩
    show (db.snapshots ++ [(⟨p, row.current_version + 1, content, now, cs, message⟩ : SnapshotRow)]).find?
      (fun s : SnapshotRow => s.file_path == p && s.version == row.current_version + 1) = _
    rw [findSnapshot_updateRegistry] at hnone
    exact find?_append_some _ _ _ hnone (by simp)
  · simp [get_latest_version, hreg]
  · rfl

/-- Post-state of every successful `snapshot_file` call: the registry points
at version `v`, the snapshot at `(p, v)` carries the hash of `content`, and
the snapshot table either is unchanged (idempotent skip, in which case `v` is
the pre-call current version) or has exactly the one new row appended. -/
lemma snapshot_file_ok_post (hash : String → String) (now : Nat) (db : HistoryDB)
    (p content language folder : String) (message : Option String)
    (v : Nat) (db1 : HistoryDB)
    (h : snapshot_file hash now db p content language folder message =
      SnapResult.ok v db1) :
    (∃ row1, findRegistry db1 p = some row1 ∧ row1.current_version = v) ∧
    (∃ s, findSnapshot db1 p v = some s ∧ s.checksum = hash content) ∧
    (db1 = db ∨
      (v = get_latest_version db p + 1 ∧
       db1.snapshots = db.snapshots ++ [⟨p, v, content, now, hash content, message⟩])) ∧
    (db1 = db → v = get_latest_version db p ∧
      ∃ s, findSnapshot db p v = some s ∧ s.checksum = hash content) := by
  unfold snapshot_file at h
  cases hreg : findRegistry db p with
  | none =>
    rw [hreg] at h
    simp only [] at h
    obtain ⟨hv, hnone, hdb1⟩ := insertSnapshot_ok _ _ _ _ _ _ _ _ _ h
    subst hv
    subst hdb1
    have hfs : findSnapshot db p 1 = none := hnone
    refine ⟨?_, ?_, ?_, ?_⟩
    · refine ⟨(⟨p, 1, now, now, language, folder⟩ : RegistryRow), ?_, rfl⟩
      show (db.registry ++ [(⟨p, 1, now, now, language, folder⟩ : RegistryRow)]).find?
        (fun r : RegistryRow => r.file_path == p) = _
      exact find?_append_some _ _ _ hreg (by simp)
    · refine ⟨(⟨p, 1, content, now, hash content, message⟩ : SnapshotRow), ?_, rfl⟩
      show (db.snapshots ++ [(⟨p, 1, content, now, hash content, message⟩ : SnapshotRow)]).find?
        (fun s : SnapshotRow => s.file_path == p && s.version == 1) = _
      exact find?_append_some _ _ _ hfs (by simp)
    · right
      simp [get_latest_version, hreg]
    · intro hd
      exfalso
      have hlen := congrArg (fun d => d.snapshots.length) hd
      simp at hlen
  | some row =>
    rw [hreg] at h
    simp only [] at h
    cases hsnap : findSnapshot db p row.current_version with
    | some snap =>
      rw [hsnap] at h
      simp only [] at h
      by_cases hcs : (snap.checksum == hash content) = true
      · rw [if_pos hcs] at h
        simp only [SnapResult.ok.injEq] at h
        obtain ⟨hv, hdb⟩ := h
        subst hv
        subst hdb
        refine ⟨⟨row, hreg, rfl⟩, ⟨snap, hsnap, by simpa using hcs⟩, Or.inl rfl, ?_⟩
        intro _
        exact ⟨by simp [get_latest_version, hreg], snap, hsnap, by simpa using hcs⟩
      · rw [if_neg hcs] at h
        obtain ⟨h1, h2, h3, h4⟩ := snapshot_insert_tracked now db p content
          (hash content) message row v db1 hreg h
        refine ⟨h1, h2, Or.inr ⟨h3, h4⟩, ?_⟩
        intro hd
        exfalso
        have hlen : db1.snapshots.length = db.snapshots.length := by rw [hd]
        rw [h4] at hlen
        simp at hlen
    | none =>
      rw [hsnap] at h
      simp only [] at h
      obtain ⟨h1, h2, h3, h4⟩ := snapshot_insert_tracked now db p content
        (hash content) message row v db1 hreg h
      refine ⟨h1, h2, Or.inr ⟨h3, h4⟩, ?_⟩
      intro hd
      exfalso
      have hlen : db1.snapshots.length = db.snapshots.length := by rw [hd]
      rw [h4] at hlen
      simp at hlen


/-- The idempotent skip branch of `snapshot_file`: when the registry row's
current snapshot carries the hash of the new content, the call returns the
current version and leaves the database untouched. -/
lemma snapshot_file_skip (hash : String → String) (now : Nat) (db : HistoryDB)
    (p content language folder : String) (message : Option String)
    (row : RegistryRow) (snap : SnapshotRow)
    (hreg : findRegistry db p = some row)
    (hsnap : findSnapshot db p row.current_version = some snap)
    (hcs : snap.checksum = hash content) :
    snapshot_file hash now db p content language folder message =
      SnapResult.ok row.current_version db := by
  unfold snapshot_file
  rw [hreg]
  simp only []
  rw [hsnap]
  simp only []
  rw [if_pos (by simp [hcs])]

/-- C2: `restore_to_version(p, v)` followed by
`snapshot_file(p, get_snapshot(p, v))` returns `v`, leaves `current_version`
at `v`, and inserts no snapshot row, for every tracked file `p` with a stored
snapshot `v` (in a database whose stored checksums are the hashes of the
stored contents). -/
theorem restore_then_snapshot_noop (hash : String → String) (now now2 : Nat)
    (db : HistoryDB) (p language folder : String) (message : Option String)
    (v : Nat) (row : RegistryRow) (snap : SnapshotRow)
    (hreg : findRegistry db p = some row)
    (hsnap : findSnapshot db p v = some snap)
    (hwf : ChecksumsOk hash db) :
    (restore_to_version now db p v).1 = true ∧
    ∃ c, get_snapshot (restore_to_version now db p v).2 p v = some c ∧
      snapshot_file hash now2 (restore_to_version now db p v).2 p c language
        folder message = SnapResult.ok v (restore_to_version now db p v).2 ∧
      get_latest_version (restore_to_version now db p v).2 p = v ∧
      ((restore_to_version now db p v).2).snapshots = db.snapshots := by
  have hsome : (findSnapshot db p v).isSome := by rw [hsnap]; rfl
  have hrv : restore_to_version now db p v = (true, updateRegistry db p v now) := by
    unfold restore_to_version
    rw [if_pos hsome]
  rw [hrv]
  have hreg1 : findRegistry (updateRegistry db p v now) p =
      some ({ row with current_version := v, last_modified := now }) := by
    rw [findRegistry_updateRegistry, hreg]
    rfl
  have hsnap1 : findSnapshot (updateRegistry db p v now) p v = some snap := by
    rw [findSnapshot_updateRegistry]
    exact hsnap
  have hcs : snap.checksum = hash snap.content :=
    hwf snap (List.mem_of_find?_eq_some hsnap)
  refine ⟨rfl, snap.content, ?_, ?_, ?_, rfl⟩
  · show (findSnapshot (updateRegistry db p v now) p v).map _ = _
    rw [hsnap1]
    rfl
  · exact snapshot_file_skip hash now2 (updateRegistry db p v now) p snap.content
      language folder message _ snap hreg1 hsnap1 hcs
  · show get_latest_version (updateRegistry db p v now) p = v
    unfold get_latest_version
    rw [hreg1]

/-- C2 witness database: two versions of `a.py`, checksums equal to contents
(the hash is instantiated with the identity). -/
def dbC2 : HistoryDB :=
  ⟨[⟨"a.py", 1, "x", 0, "x", none⟩, ⟨"a.py", 2, "y", 5, "y", none⟩],
   [⟨"a.py", 2, 0, 5, "python", "."⟩]⟩

/-- C2 witness: the restore-then-snapshot theorem applied to `dbC2` at
version 1. -/
theorem restore_then_snapshot_noop_witness :
    (findRegistry dbC2 "a.py" = some ⟨"a.py", 2, 0, 5, "python", "."⟩ ∧
     findSnapshot dbC2 "a.py" 1 = some ⟨"a.py", 1, "x", 0, "x", none⟩ ∧
     ChecksumsOk (fun s => s) dbC2) ∧
    ((restore_to_version 9 dbC2 "a.py" 1).1 = true ∧
     ∃ c, get_snapshot (restore_to_version 9 dbC2 "a.py" 1).2 "a.py" 1 = some c ∧
      snapshot_file (fun s => s) 10 (restore_to_version 9 dbC2 "a.py" 1).2 "a.py" c
        "python" "." none =
        SnapResult.ok 1 (restore_to_version 9 dbC2 "a.py" 1).2 ∧
      get_latest_version (restore_to_version 9 dbC2 "a.py" 1).2 "a.py" = 1 ∧
      ((restore_to_version 9 dbC2 "a.py" 1).2).snapshots = dbC2.snapshots) :=
  ⟨⟨by decide, by decide, by unfold ChecksumsOk; decide⟩,
    restore_then_snapshot_noop (fun s => s) 9 10 dbC2 "a.py" "python" "." none 1
      ⟨"a.py", 2, 0, 5, "python", "."⟩ ⟨"a.py", 1, "x", 0, "x", none⟩
      (by decide) (by decide) (by unfold ChecksumsOk; decide)⟩

/-- C3: if a `snapshot_file` call succeeds with version `v` and state `db1`,
an immediately repeated call with the same content returns the same version
`v` and the same state `db1` (no new snapshot row, `current_version`
unchanged); the pair of calls adds at most one snapshot row in total, and
exactly one when the content's hash differed from the snapshot at the
pre-call current version (in particular for an untracked file). -/
theorem snapshot_idempotent (hash : String → String) (now now2 : Nat)
    (db : HistoryDB) (p content language folder : String)
    (message : Option String) (v : Nat) (db1 : HistoryDB)
    (h1 : snapshot_file hash now db p content language folder message =
      SnapResult.ok v db1) :
    snapshot_file hash now2 db1 p content language folder message =
      SnapResult.ok v db1 ∧
    db1.snapshots.length ≤ db.snapshots.length + 1 ∧
    ((∀ row, findRegistry db p = some row →
        ∀ s, findSnapshot db p row.current_version = some s →
          s.checksum ≠ hash content) →
      db1.snapshots.length = db.snapshots.length + 1) := by
  obtain ⟨⟨row1, hr1, hcv⟩, ⟨s1, hs1, hc1⟩, hor, hskip⟩ :=
    snapshot_file_ok_post hash now db p content language folder message v db1 h1
  refine ⟨?_, ?_, ?_⟩
  · have hs1v : findSnapshot db1 p row1.current_version = some s1 := by
      rw [hcv]
      exact hs1
    have := snapshot_file_skip hash now2 db1 p content language folder message
      row1 s1 hr1 hs1v hc1
    rw [hcv] at this
    exact this
  · cases hor with
    | inl h => rw [h]; omega
    | inr h => rw [h.2]; simp
  · intro hch
    cases hor with
    | inl h =>
      exfalso
      obtain ⟨hveq, s, hfs, hcs⟩ := hskip h
      rw [h] at hr1
      have hfv : findSnapshot db p row1.current_version = some s := by
        rw [hcv]
        exact hfs
      exact hch row1 hr1 s hfv hcs
    | inr h =>
      rw [h.2]
      simp

/-- C3 witness: snapshotting `"hello"` twice for a fresh file writes one row;
the first call's result is evaluated concretely and the theorem is applied to
it. -/
theorem snapshot_idempotent_witness :
    (snapshot_file (fun s => s) 0 ⟨[], []⟩ "a.py" "hello" "python" "." none =
      SnapResult.ok 1 ⟨[⟨"a.py", 1, "hello", 0, "hello", none⟩],
        [⟨"a.py", 1, 0, 0, "python", "."⟩]⟩) ∧
    (snapshot_file (fun s => s) 7 ⟨[⟨"a.py", 1, "hello", 0, "hello", none⟩],
        [⟨"a.py", 1, 0, 0, "python", "."⟩]⟩ "a.py" "hello" "python" "." none =
      SnapResult.ok 1 ⟨[⟨"a.py", 1, "hello", 0, "hello", none⟩],
        [⟨"a.py", 1, 0, 0, "python", "."⟩]⟩ ∧
     (⟨[⟨"a.py", 1, "hello", 0, "hello", none⟩],
        [⟨"a.py", 1, 0, 0, "python", "."⟩]⟩ : HistoryDB).snapshots.length ≤
       (⟨[], []⟩ : HistoryDB).snapshots.length + 1 ∧
     ((∀ row, findRegistry ⟨[], []⟩ "a.py" = some row →
        ∀ s, findSnapshot ⟨[], []⟩ "a.py" row.current_version = some s →
          s.checksum ≠ (fun s => s) "hello") →
      (⟨[⟨"a.py", 1, "hello", 0, "hello", none⟩],
        [⟨"a.py", 1, 0, 0, "python", "."⟩]⟩ : HistoryDB).snapshots.length =
        (⟨[], []⟩ : HistoryDB).snapshots.length + 1)) :=
  ⟨by decide,
    snapshot_idempotent (fun s => s) 0 7 ⟨[], []⟩ "a.py" "hello" "python" "."
      none 1 ⟨[⟨"a.py", 1, "hello", 0, "hello", none⟩],
        [⟨"a.py", 1, 0, 0, "python", "."⟩]⟩ (by decide)⟩

/-- C4: every successful `snapshot_file` call whose content hash differs from
the snapshot at the file's current version (an untracked file has current
version 0 and no registry row, making the hypothesis vacuous) returns
`current_version + 1` and leaves the registry's `current_version` exactly one
greater than before the call. -/
theorem snapshot_monotonic (hash : String → String) (now : Nat)
    (db : HistoryDB) (p content language folder : String)
    (message : Option String) (v : Nat) (db1 : HistoryDB)
    (hch : ∀ row, findRegistry db p = some row →
      ∀ s, findSnapshot db p row.current_version = some s →
        s.checksum ≠ hash content)
    (hok : snapshot_file hash now db p content language folder message =
      SnapResult.ok v db1) :
    v = get_latest_version db p + 1 ∧
    get_latest_version db1 p = get_latest_version db p + 1 := by
  obtain ⟨⟨row1, hr1, hcv⟩, _, hor, hskip⟩ :=
    snapshot_file_ok_post hash now db p content language folder message v db1 hok
  cases hor with
  | inl h =>
    exfalso
    obtain ⟨hveq, s, hfs, hcs⟩ := hskip h
    rw [h] at hr1
    have hfv : findSnapshot db p row1.current_version = some s := by
      rw [hcv]
      exact hfs
    exact hch row1 hr1 s hfv hcs
  | inr h =>
    refine ⟨h.1, ?_⟩
    have hg : get_latest_version db1 p = row1.current_version := by
      unfold get_latest_version
      rw [hr1]
    rw [hg, hcv, h.1]

/-- C4 witness: a fresh (untracked) file; the call returns `0 + 1` and leaves
`current_version = 1`. -/
theorem snapshot_monotonic_witness :
    1 = get_latest_version ⟨[], []⟩ "a.py" + 1 ∧
    get_latest_version ⟨[⟨"a.py", 1, "hello", 0, "hello", none⟩],
        [⟨"a.py", 1, 0, 0, "python", "."⟩]⟩ "a.py" =
      get_latest_version ⟨[], []⟩ "a.py" + 1 :=
  snapshot_monotonic (fun s => s) 0 ⟨[], []⟩ "a.py" "hello" "python" "." none 1
    ⟨[⟨"a.py", 1, "hello", 0, "hello", none⟩], [⟨"a.py", 1, 0, 0, "python", "."⟩]⟩
    (by intro row hr; simp [findRegistry, List.find?] at hr) (by decide)

/-- C5: after `restore_to_version` has rewound a tracked file to `v` while a
snapshot `v + 1` still exists, a `snapshot_file` call with content whose hash
differs from snapshot `v`'s checksum raises `IntegrityError` (the `INSERT` of
key `(p, v + 1)` violates `UNIQUE(file_path, version)`) and writes no snapshot
row. -/
theorem restore_rewind_snapshot_raises (hash : String → String) (now now2 : Nat)
    (db : HistoryDB) (p content language folder : String)
    (message : Option String) (v : Nat) (row : RegistryRow)
    (hreg : findRegistry db p = some row)
    (hres : (restore_to_version now db p v).1 = true)
    (hnext : (findSnapshot db p (v + 1)).isSome)
    (hdiff : ∀ s, findSnapshot db p v = some s → hash content ≠ s.checksum) :
    ∃ db2, snapshot_file hash now2 (restore_to_version now db p v).2 p content
        language folder message = SnapResult.integrityError db2 ∧
      db2.snapshots = db.snapshots := by
  have hsome : (findSnapshot db p v).isSome := by
    by_contra hn
    unfold restore_to_version at hres
    rw [if_neg hn] at hres
    simp at hres
  obtain ⟨snap, hsnap⟩ := Option.isSome_iff_exists.mp hsome
  have hrv : (restore_to_version now db p v).2 = updateRegistry db p v now := by
    unfold restore_to_version
    rw [if_pos hsome]
  rw [hrv]
  have hreg1 : findRegistry (updateRegistry db p v now) p =
      some ({ row with current_version := v, last_modified := now }) := by
    rw [findRegistry_updateRegistry, hreg]
    rfl
  have hsnap1 : findSnapshot (updateRegistry db p v now) p v = some snap := by
    rw [findSnapshot_updateRegistry]
    exact hsnap
  unfold snapshot_file
  rw [hreg1]
  simp only []
  rw [show findSnapshot (updateRegistry db p v now) p
      ({ row with current_version := v, last_modified := now } : RegistryRow).current_version =
      some snap from hsnap1]
  simp only []
  rw [if_neg (by simp only [beq_iff_eq]; intro hEq; exact hdiff snap hsnap hEq.symm)]
  unfold insertSnapshot
  rw [if_pos (show (findSnapshot (updateRegistry (updateRegistry db p v now) p
      (({ row with current_version := v, last_modified := now } : RegistryRow).current_version + 1)
      now2) p (({ row with current_version := v, last_modified := now } : RegistryRow).current_version + 1)).isSome
    from hnext)]
  exact ⟨_, rfl, rfl⟩

/-- C5 witness database: `a.py` has snapshots 1 and 2; `current_version`
points at 2 before the restore. -/
def dbC5 : HistoryDB :=
  ⟨[⟨"a.py", 1, "x", 0, "x", none⟩, ⟨"a.py", 2, "y", 5, "y", none⟩],
   [⟨"a.py", 2, 0, 5, "python", "."⟩]⟩

/-- C5 witness: restore `dbC5` to version 1, then snapshot content `"z"`
(hash differs from `"x"`): the call raises and the snapshot table is
unchanged. -/
theorem restore_rewind_snapshot_raises_witness :
    ((restore_to_version 9 dbC5 "a.py" 1).1 = true ∧
     (findSnapshot dbC5 "a.py" 2).isSome) ∧
    ∃ db2, snapshot_file (fun s => s) 10 (restore_to_version 9 dbC5 "a.py" 1).2
        "a.py" "z" "python" "." none = SnapResult.integrityError db2 ∧
      db2.snapshots = dbC5.snapshots :=
  ⟨⟨by decide, by decide⟩,
    restore_rewind_snapshot_raises (fun s => s) 9 10 dbC5 "a.py" "z" "python"
      "." none 1 ⟨"a.py", 2, 0, 5, "python", "."⟩ (by decide) (by decide)
      (by decide)
      (by
        intro s hs
        have h0 : findSnapshot dbC5 "a.py" 1 = some ⟨"a.py", 1, "x", 0, "x", none⟩ := by
          decide
        rw [h0] at hs
        cases hs
        decide)⟩



/-! ## Folder listing (`HistoryStore.list_files_in_folder`)

The Python method runs `SELECT file_path FROM file_registry WHERE file_path
LIKE ? ORDER BY file_path` with the pattern `folder_prefix.rstrip("/") + "/"
+ "%"`.  SQLite's `LIKE` (no `ESCAPE` clause, default `case_sensitive_like`
off) treats `%` as any sequence, `_` as any single character, and compares
ASCII letters case-insensitively; `likeMatch` models exactly that. -/

/-- ASCII lower-casing as performed by SQLite's default `LIKE`. -/
def asciiLower (c : Char) : Char :=
  if 'A' ≤ c ∧ c ≤ 'Z' then Char.ofNat (c.toNat + 32) else c

/-- Single-character comparison of SQLite `LIKE` (ASCII case-insensitive). -/
def likeCharEq (p c : Char) : Bool :=
  asciiLower p == asciiLower c

/-- SQLite `LIKE` pattern matching (no `ESCAPE` clause). -/
def likeMatch : List Char → List Char → Bool
  | [], s => s.isEmpty
  | p :: ps, s =>
    if p = '%' then s.tails.any (fun t => likeMatch ps t)
    else if p = '_' then
      match s with
      | [] => false
      | _ :: cs => likeMatch ps cs
    else
      match s with
      | [] => false
      | c :: cs => likeCharEq p c && likeMatch ps cs

/-- Python `folder_prefix.rstrip("/")`. -/
def rstripSlash (s : String) : String :=
  String.mk ((s.toList.reverse.dropWhile (fun c => c = '/')).reverse)

/-- `HistoryStore.list_files_in_folder` from
`src/embex/core/history_store.py`: filter the registry by the `LIKE` pattern
`rstrip("/") + "/%"` and sort by path (`ORDER BY file_path`). -/
def list_files_in_folder (db : HistoryDB) (folderPfx : String) : List String :=
  List.insertionSort (fun a b => a ≤ b)
    ((db.registry.filter (fun r =>
        likeMatch (rstripSlash folderPfx ++ "/" ++ "%").toList r.file_path.toList)).map
      (fun r => r.file_path))

/-- Case-insensitive (ASCII) prefix test, the wildcard-free meaning of the
`LIKE` pattern used above. -/
def ciStartsWith : List Char → List Char → Bool
  | [], _ => true
  | _ :: _, [] => false
  | p :: ps, c :: cs => likeCharEq p c && ciStartsWith ps cs

/-- C9 counterexample registry: one tracked file `srca/f.py`. -/
def dbC9 : HistoryDB := ⟨[], [⟨"srca/f.py", 1, 0, 0, "python", "srca"⟩]⟩

/-- C9 counterexample: for the folder prefix `src_` (a legal folder name
containing the `LIKE` single-character wildcard), `list_files_in_folder`
returns `srca/f.py`, a path that does not extend the prefix `src_` at a
path-segment boundary. -/
theorem list_files_wildcard_counterexample :
    list_files_in_folder dbC9 "src_" = ["srca/f.py"] ∧
    (rstripSlash "src_" ++ "/").toList.isPrefixOf "srca/f.py".toList = false := by
  decide

/-- For a wildcard-free pattern, `LIKE` with a trailing `%` is exactly the
ASCII-case-insensitive prefix test. -/
lemma likeMatch_append_percent :
    ∀ (pat s : List Char), (∀ ch ∈ pat, ch ≠ '%' ∧ ch ≠ '_') →
    likeMatch (pat ++ ['%']) s = ciStartsWith pat s := by
  intro pat
  induction pat with
  | nil =>
    intro s _
    have hmem : ([] : List Char) ∈ s.tails := by
      rw [List.mem_tails]
      exact List.nil_suffix
    show s.tails.any (fun t => likeMatch [] t) = true
    rw [List.any_eq_true]
    exact ⟨[], hmem, rfl⟩
  | cons p ps ih =>
    intro s hw
    have hp := hw p (List.mem_cons_self p ps)
    have hw2 : ∀ ch ∈ ps, ch ≠ '%' ∧ ch ≠ '_' :=
      fun ch hch => hw ch (List.mem_cons_of_mem p hch)
    cases s with
    | nil =>
      simp only [List.cons_append, likeMatch, if_neg hp.1, if_neg hp.2, ciStartsWith]
    | cons c cs =>
      simp only [List.cons_append, likeMatch, if_neg hp.1, if_neg hp.2, ciStartsWith]
      exact congrArg (fun b => likeCharEq p c && b) (ih cs hw2)

/-- C9 (amended): for every folder prefix free of the SQL `LIKE` wildcards
`%` and `_`, `list_files_in_folder` returns exactly the tracked paths that
extend the prefix, compared ASCII-case-insensitively, at a path-segment
boundary (trailing slashes stripped, one separator implied). -/
theorem list_files_in_folder_boundary (db : HistoryDB) (folderPfx q : String)
    (hwild : ∀ ch ∈ folderPfx.toList, ch ≠ '%' ∧ ch ≠ '_') :
    q ∈ list_files_in_folder db folderPfx ↔
      ((∃ r ∈ db.registry, r.file_path = q) ∧
       ciStartsWith (rstripSlash folderPfx ++ "/").toList q.toList = true) := by
  have hw2 : ∀ ch ∈ (rstripSlash folderPfx ++ "/").toList, ch ≠ '%' ∧ ch ≠ '_' := by
    intro ch hch
    have : (rstripSlash folderPfx ++ "/").toList =
        (rstripSlash folderPfx).toList ++ ['/'] := by
      simp [String.toList, String.data_append]
    rw [this, List.mem_append] at hch
    rcases hch with hch | hch
    · have hsub : (rstripSlash folderPfx).toList.Sublist
          folderPfx.toList.reverse.reverse := by
        simp only [rstripSlash, String.toList]
        exact (List.dropWhile_sublist _).reverse
      have : ch ∈ folderPfx.toList := by
        have := hsub.mem hch
        simpa using this
      exact hwild ch this
    · simp at hch
      subst hch
      refine ⟨by decide, by decide⟩
  have hpat : (rstripSlash folderPfx ++ "/" ++ "%").toList =
      (rstripSlash folderPfx ++ "/").toList ++ ['%'] := by
    simp [String.toList, String.data_append]
  unfold list_files_in_folder
  rw [(List.perm_insertionSort _ _).mem_iff, List.mem_map]
  constructor
  · rintro ⟨r, hr, rfl⟩
    rw [List.mem_filter] at hr
    refine ⟨⟨r, hr.1, rfl⟩, ?_⟩
    have := hr.2
    rw [hpat, likeMatch_append_percent _ _ hw2] at this
    exact this
  · rintro ⟨⟨r, hr, rfl⟩, hci⟩
    refine ⟨r, ?_, rfl⟩
    rw [List.mem_filter]
    refine ⟨hr, ?_⟩
    rw [hpat, likeMatch_append_percent _ _ hw2]
    exact hci

/-- C9 witness registry: `src/x.py` and `srcx.py`. -/
def dbC9w : HistoryDB :=
  ⟨[], [⟨"src/x.py", 1, 0, 0, "python", "src"⟩, ⟨"srcx.py", 1, 0, 0, "python", "."⟩]⟩

/-- C9 witness: the amended theorem applied to the prefix `src` and the path
`src/x.py` (and `srcx.py` is indeed not returned: its membership is
equivalent to a false prefix test). -/
theorem list_files_in_folder_boundary_witness :
    (∀ ch ∈ "src".toList, ch ≠ '%' ∧ ch ≠ '_') ∧
    ("src/x.py" ∈ list_files_in_folder dbC9w "src" ↔
      ((∃ r ∈ dbC9w.registry, r.file_path = "src/x.py") ∧
       ciStartsWith (rstripSlash "src" ++ "/").toList "src/x.py".toList = true)) :=
  ⟨by decide,
    list_files_in_folder_boundary dbC9w "src" "src/x.py" (by decide)⟩



/-! ## Corrective RAG pipeline (`src/embex/core/rag.py`)

`ask` is modelled over its collaborators: the retrieval outcome (what
`vector_store.query` returned, one entry per retrieved chunk, scores as
rationals), the presence of the provider API key, and the provider call's
outcome, all carried by `RagEnv`.  The effect trace records, in program
order, the embedding request (`embedder.embed_query`, the first statement of
`ask`), the vector-index query, and the generation request issued by
`_call_zai` after its key check.  Python formats the score with three
decimals in the context block; the model prints the rational instead, which
no claim observes. -/

structure RetrievedChunk where
  file_path : String
  chunk_index : Nat
  score : Rat
  preview : String
  language : String
  folder : String
deriving DecidableEq, Repr

structure SourceEntry where
  file_path : String
  chunk_index : Nat
  score : Rat
  preview : String
  language : String
  folder : String
deriving DecidableEq, Repr

/-- One entry of the returned `sources` list: the preview is capped at
`_MAX_CHUNK_CHARS = 1200` characters. -/
def mkSource (r : RetrievedChunk) : SourceEntry :=
  ⟨r.file_path, r.chunk_index, r.score, r.preview.take 1200, r.language, r.folder⟩

/-- One block of the prompt context built in step 3 of `ask`. -/
def formatChunk (r : RetrievedChunk) : String :=
  "### " ++ r.file_path ++ " (chunk #" ++ toString r.chunk_index ++ ", score=" ++
    toString r.score ++ ")\n" ++ "```\n" ++ r.preview.take 1200 ++ "\n```"

structure AskOutput where
  answer : String
  sources : List SourceEntry
  relevant_count : Nat
  total_retrieved : Nat
deriving DecidableEq, Repr

/-- Externally observable requests issued by `ask`, in program order. -/
inductive RagEffect where
  | embedQuery
  | vectorQuery
  | genRequest
deriving DecidableEq, Repr

/-- Errors raised by `ask`: the `EnvironmentError` of `_call_zai` when the
API-key variable is unset (a configuration error), or a propagated provider
failure. -/
inductive RagError where
  | configError
  | providerError (msg : String)
deriving DecidableEq, Repr

/-- Collaborator behaviour for one `ask` call. -/
structure RagEnv where
  apiKeySet : Bool
  llmOutcome : Except String String
  retrieved : List RetrievedChunk

/-- `relevant`, the list comprehension filtering by `score >= threshold`. -/
def relevantOf (results : List RetrievedChunk) (threshold : Rat) :
    List RetrievedChunk :=
  results.filter (fun r => threshold ≤ r.score)

/-- `context_chunks`: `relevant` when non-empty, else the full set. -/
def contextChunks (results : List RetrievedChunk) (threshold : Rat) :
    List RetrievedChunk :=
  if (relevantOf results threshold).isEmpty then results
  else relevantOf results threshold

/-- `context_str` of step 3 of `ask`. -/
def contextStr (results : List RetrievedChunk) (threshold : Rat) : String :=
  if ((contextChunks results threshold).map formatChunk).isEmpty then
    "(No code chunks retrieved.)"
  else String.intercalate "\n\n" ((contextChunks results threshold).map formatChunk)

/-- `_call_zai`: raises `EnvironmentError` when the key variable is unset,
before the client is even constructed; otherwise issues the generation
request and returns (or propagates) the provider outcome. -/
def call_zai (env : RagEnv) (_question _context : String) :
    List RagEffect × Except RagError String :=
  if env.apiKeySet = false then ([], Except.error RagError.configError)
  else ([RagEffect.genRequest],
    match env.llmOutcome with
    | Except.ok a => Except.ok a
    | Except.error e => Except.error (RagError.providerError e))

/-- `ask` from `src/embex/core/rag.py`: embed the question, query the vector
index, partition by the threshold, fall back to the full retrieved set when
nothing clears it, build the context, call the provider, and return the
structured result. -/
def ask (env : RagEnv) (question : String) (threshold : Rat) :
    List RagEffect × Except RagError AskOutput :=
  (RagEffect.embedQuery :: RagEffect.vectorQuery ::
      (call_zai env question (contextStr env.retrieved threshold)).1,
   match (call_zai env question (contextStr env.retrieved threshold)).2 with
   | Except.ok answer =>
     Except.ok ⟨answer, (contextChunks env.retrieved threshold).map mkSource,
       (relevantOf env.retrieved threshold).length, env.retrieved.length⟩
   | Except.error e => Except.error e)

/-- C7: when every retrieved score is strictly below the threshold, `ask`
returns `relevant_count = 0` while `sources` is the full retrieved set; in
particular if the retrieval returned `min top_k avail` entries, so does
`sources`. -/
theorem ask_crag_fallback (env : RagEnv) (q : String) (th : Rat)
    (topk avail : Nat) (a : String)
    (hlow : ∀ r ∈ env.retrieved, r.score < th)
    (hkey : env.apiKeySet = true)
    (hllm : env.llmOutcome = Except.ok a)
    (hlen : env.retrieved.length = min topk avail) :
    (ask env q th).2 =
      Except.ok ⟨a, env.retrieved.map mkSource, 0, env.retrieved.length⟩ ∧
    (env.retrieved.map mkSource).length = min topk avail := by
  have hrel : relevantOf env.retrieved th = [] := by
    unfold relevantOf
    rw [List.filter_eq_nil_iff]
    intro r hr
    simp only [decide_eq_true_eq]
    exact not_le.mpr (hlow r hr)
  have hctx : contextChunks env.retrieved th = env.retrieved := by
    unfold contextChunks
    rw [hrel]
    simp
  constructor
  · unfold ask call_zai
    rw [hkey, hllm, hctx, hrel]
    simp
  · rw [List.length_map]
    exact hlen

/-- C7 witness environment: one retrieved chunk scoring 1/10, below the
default threshold 3/10. -/
def envC7 : RagEnv :=
  ⟨true, Except.ok "ans", [⟨"f.py", 0, mkRat 1 10, "p", "py", "."⟩]⟩

/-- C7 witness: the fallback theorem applied to `envC7`. -/
theorem ask_crag_fallback_witness :
    ((∀ r ∈ envC7.retrieved, r.score < mkRat 3 10) ∧
      envC7.apiKeySet = true ∧ envC7.llmOutcome = Except.ok "ans" ∧
      envC7.retrieved.length = min 8 1) ∧
    ((ask envC7 "q" (mkRat 3 10)).2 =
        Except.ok ⟨"ans", envC7.retrieved.map mkSource, 0, envC7.retrieved.length⟩ ∧
      (envC7.retrieved.map mkSource).length = min 8 1) :=
  ⟨⟨by decide, rfl, rfl, by decide⟩,
    ask_crag_fallback envC7 "q" (mkRat 3 10) 8 1 "ans" (by decide) rfl rfl
      (by decide)⟩

/-- C10 counterexample environment: API key unset, one retrieved chunk. -/
def envNoKey : RagEnv :=
  ⟨false, Except.ok "x", [⟨"f.py", 0, mkRat 1 2, "p", "py", "."⟩]⟩

/-- C10 counterexample: with the key variable unset, `ask` does surface the
configuration error, but only after the embedding and retrieval requests have
been issued — the effect trace before the error is
`[embedQuery, vectorQuery]`, not empty as the claim requires. -/
theorem ask_missing_key_effects_counterexample :
    (ask envNoKey "q" (mkRat 3 10)).2 = Except.error RagError.configError ∧
    (ask envNoKey "q" (mkRat 3 10)).1 =
      [RagEffect.embedQuery, RagEffect.vectorQuery] ∧
    (ask envNoKey "q" (mkRat 3 10)).1 ≠ [] := by
  refine ⟨rfl, rfl, by simp [ask]⟩

/-- C10 (amended): when the key variable is unset, `ask` raises the
configuration error and never issues the generation request (though the
embedding and retrieval steps have already run); when the key is set and the
provider call fails, the failure propagates to the caller unchanged. -/
theorem ask_error_semantics :
    (∀ (env : RagEnv) (q : String) (th : Rat), env.apiKeySet = false →
      (ask env q th).2 = Except.error RagError.configError ∧
      RagEffect.genRequest ∉ (ask env q th).1) ∧
    (∀ (env : RagEnv) (q : String) (th : Rat) (e : String),
      env.apiKeySet = true → env.llmOutcome = Except.error e →
      (ask env q th).2 = Except.error (RagError.providerError e)) := by
  constructor
  · intro env q th hkey
    constructor
    · unfold ask call_zai
      rw [hkey]
      simp
    · unfold ask call_zai
      rw [hkey]
      simp
  · intro env q th e hkey hllm
    unfold ask call_zai
    rw [hkey, hllm]
    simp

/-- C10 witness: the amended theorem applied to a key-less environment and to
a failing provider. -/
theorem ask_error_semantics_witness :
    (((ask ⟨false, Except.ok "x", []⟩ "q" 0).2 = Except.error RagError.configError ∧
      RagEffect.genRequest ∉ (ask ⟨false, Except.ok "x", []⟩ "q" 0).1) ∧
     (ask ⟨true, Except.error "boom", []⟩ "q" 0).2 =
       Except.error (RagError.providerError "boom")) :=
  ⟨ask_error_semantics.1 ⟨false, Except.ok "x", []⟩ "q" 0 rfl,
   ask_error_semantics.2 ⟨true, Except.error "boom", []⟩ "q" 0 "boom" rfl rfl⟩



/-! ## Watcher debouncing (`src/embex/core/watcher.py`)

`EmbexEventHandler._handle_event` drops directory events and ignored paths,
then consults `_is_debounced`: the per-path last-seen timestamp map
`_last_event` (initially empty, `get(path, 0)` defaulting to 0) drops an
event arriving less than `_DEBOUNCE_SECONDS = 1.0` after the last *accepted*
event for the same path, and is updated only when an event is accepted.
`on_created` and `on_modified` both delegate to `_handle_event`, so both
event kinds behave identically.  `time.time()` values are modelled as
rationals; the eligibility filter `should_ignore` (an external collaborator)
is the per-event flag `ignored`. -/

structure WatchEvent where
  path : String
  time : Rat
  isDirectory : Bool
  ignored : Bool
deriving DecidableEq, Repr

/-- The `_last_event` map: association list from path to last accepted
timestamp (a new entry is prepended; lookup takes the first match, so older
entries are shadowed exactly like a Python dict update). -/
abbrev DebounceMap := List (String × Rat)

/-- `self._last_event.get(path, 0)`. -/
def lastEventTime (st : DebounceMap) (p : String) : Rat :=
  (st.lookup p).getD 0

/-- `_is_debounced`: drop when within the window, else record the new
timestamp. -/
def isDebounced (st : DebounceMap) (p : String) (now : Rat) : Bool × DebounceMap :=
  if now - lastEventTime st p < 1 then (true, st)
  else (false, (p, now) :: st)

/-- `_handle_event`: directory events and ignored paths are dropped before
the debounce check; returns whether `_process_file` runs, plus the updated
state. -/
def handleEvent (st : DebounceMap) (e : WatchEvent) : Bool × DebounceMap :=
  if e.isDirectory then (false, st)
  else if e.ignored then (false, st)
  else
    match isDebounced st e.path e.time with
    | (true, st2) => (false, st2)
    | (false, st2) => (true, st2)

/-- Debounce state after a sequence of events. -/
def runState (st : DebounceMap) (es : List WatchEvent) : DebounceMap :=
  es.foldl (fun s e => (handleEvent s e).2) st

/-- Whether the event `e`, arriving with state `st`, is accepted (triggers
`_process_file`). -/
def accepted (st : DebounceMap) (e : WatchEvent) : Bool :=
  (handleEvent st e).1

/-- Whether the `k`-th event of `es` (run from state `st`) is accepted. -/
def acceptedAt (st : DebounceMap) (es : List WatchEvent) (k : Nat) : Bool :=
  match es.get? k with
  | some e => accepted (runState st (es.take k)) e
  | none => false

lemma runState_append (st : DebounceMap) (xs ys : List WatchEvent) :
    runState st (xs ++ ys) = runState (runState st xs) ys :=
  List.foldl_append _ _ _ _

/-- Either an event is dropped and the state is untouched, or it is accepted,
its timestamp is recorded, and it arrived at least the window after the last
accepted event for its path. -/
lemma handleEvent_cases (st : DebounceMap) (e : WatchEvent) :
    (accepted st e = false ∧ (handleEvent st e).2 = st) ∨
    (accepted st e = true ∧ (handleEvent st e).2 = (e.path, e.time) :: st ∧
      1 ≤ e.time - lastEventTime st e.path) := by
  unfold accepted handleEvent isDebounced
  by_cases hd : e.isDirectory = true
  · left
    rw [if_pos hd]
    exact ⟨rfl, rfl⟩
  · rw [if_neg hd]
    by_cases hi : e.ignored = true
    · left
      rw [if_pos hi]
      exact ⟨rfl, rfl⟩
    · rw [if_neg hi]
      by_cases hw : e.time - lastEventTime st e.path < 1
      · left
        rw [if_pos hw]
        exact ⟨rfl, rfl⟩
      · right
        rw [if_neg hw]
        exact ⟨rfl, rfl, le_of_not_lt hw⟩

lemma lastEventTime_cons_self (st : DebounceMap) (t : Rat) (p : String) :
    lastEventTime ((p, t) :: st) p = t := by
  unfold lastEventTime
  rw [show List.lookup p ((p, t) :: st) = some t from by simp [List.lookup]]
  rfl

lemma lastEventTime_cons_other (st : DebounceMap) (t : Rat) (p q : String)
    (h : p ≠ q) : lastEventTime ((p, t) :: st) q = lastEventTime st q := by
  unfold lastEventTime
  have hqp : (q == p) = false := beq_eq_false_iff_ne.mpr (fun hh => h hh.symm)
  rw [show List.lookup q ((p, t) :: st) = List.lookup q st from by
    simp [List.lookup, hqp]]

/-- The debounce timestamp of a path is unchanged by any run containing no
accepted event for that path. -/
lemma lastEventTime_run_no_accept :
    ∀ (ys : List WatchEvent) (st : DebounceMap) (p : String),
    (∀ k (hk : k < ys.length), (ys.get ⟨k, hk⟩).path = p →
      acceptedAt st ys k = false) →
    lastEventTime (runState st ys) p = lastEventTime st p := by
  intro ys
  induction ys with
  | nil => intro st p _; rfl
  | cons y ys ih =>
    intro st p hys
    have hstep : runState st (y :: ys) = runState (handleEvent st y).2 ys := rfl
    rw [hstep]
    have hshift : ∀ k (hk : k < ys.length), (ys.get ⟨k, hk⟩).path = p →
        acceptedAt (handleEvent st y).2 ys k = false := by
      intro k hk hp
      exact hys (k + 1) (Nat.succ_lt_succ hk) hp
    rw [ih (handleEvent st y).2 p hshift]
    rcases handleEvent_cases st y with ⟨_, hst⟩ | ⟨hacc, hst, _⟩
    · rw [hst]
    · have hyp : y.path ≠ p := by
        intro hyp
        have h0 := hys 0 (Nat.succ_pos _) hyp
        have h0a : accepted st y = false := h0
        rw [h0a] at hacc
        cases hacc
      rw [hst, lastEventTime_cons_other st y.time y.path p hyp]

/-- The debounce timestamp of a path never falls below a bound respected by
the current stamp and all event times of the run. -/
lemma lastEventTime_run_ge :
    ∀ (ys : List WatchEvent) (st : DebounceMap) (p : String) (t0 : Rat),
    t0 ≤ lastEventTime st p → (∀ y ∈ ys, t0 ≤ y.time) →
    t0 ≤ lastEventTime (runState st ys) p := by
  intro ys
  induction ys with
  | nil => intro st p t0 h _; exact h
  | cons y ys ih =>
    intro st p t0 h hty
    have hstep : runState st (y :: ys) = runState (handleEvent st y).2 ys := rfl
    rw [hstep]
    refine ih (handleEvent st y).2 p t0 ?_ (fun z hz => hty z (List.mem_cons_of_mem y hz))
    rcases handleEvent_cases st y with ⟨_, hst⟩ | ⟨_, hst, _⟩
    · rw [hst]
      exact h
    · rw [hst]
      by_cases hyp : y.path = p
      · rw [hyp, lastEventTime_cons_self]
        exact hty y (List.mem_cons_self y ys)
      · rw [lastEventTime_cons_other st y.time y.path p hyp]
        exact h

/-- C8: (a) after an accepted event `e1` for a path, any event `e2` for the
same path arriving less than one second after the last accepted event for
that path (`e1`, when the events in between for that path were all dropped)
is dropped without processing; (b) when event times are monotone, two
accepted events for the same path are always at least one second apart — so
two events within the debounce window never both trigger file processing.
The handler starts from the empty timestamp map. -/
theorem watcher_debounce :
    (∀ (xs ys : List WatchEvent) (e1 e2 : WatchEvent),
      e2.path = e1.path →
      accepted (runState [] xs) e1 = true →
      (∀ k (hk : k < ys.length), (ys.get ⟨k, hk⟩).path = e1.path →
        acceptedAt (runState [] (xs ++ [e1])) ys k = false) →
      e2.time - e1.time < 1 →
      accepted (runState [] (xs ++ e1 :: ys)) e2 = false) ∧
    (∀ (xs ys : List WatchEvent) (e1 e2 : WatchEvent),
      e2.path = e1.path →
      (∀ y ∈ ys, e1.time ≤ y.time) →
      accepted (runState [] xs) e1 = true →
      accepted (runState [] (xs ++ e1 :: ys)) e2 = true →
      1 ≤ e2.time - e1.time) := by
  have hsplit : ∀ (xs : List WatchEvent) (e1 : WatchEvent) (ys : List WatchEvent),
      runState ([] : DebounceMap) (xs ++ e1 :: ys) =
      runState (runState ([] : DebounceMap) (xs ++ [e1])) ys := by
    intro xs e1 ys
    rw [show xs ++ e1 :: ys = (xs ++ [e1]) ++ ys from by simp, runState_append]
  have hstamp : ∀ (xs : List WatchEvent) (e1 : WatchEvent),
      accepted (runState [] xs) e1 = true →
      runState ([] : DebounceMap) (xs ++ [e1]) =
        (e1.path, e1.time) :: runState [] xs := by
    intro xs e1 hacc1
    rw [runState_append]
    show (handleEvent (runState [] xs) e1).2 = _
    rcases handleEvent_cases (runState [] xs) e1 with ⟨h, _⟩ | ⟨_, hst, _⟩
    · rw [hacc1] at h
      cases h
    · exact hst
  constructor
  · intro xs ys e1 e2 hpath hacc1 hmid hwin
    have hlast : lastEventTime
        (runState (runState [] (xs ++ [e1])) ys) e1.path = e1.time := by
      rw [lastEventTime_run_no_accept ys _ e1.path hmid, hstamp xs e1 hacc1,
        lastEventTime_cons_self]
    rw [hsplit]
    rcases handleEvent_cases (runState (runState [] (xs ++ [e1])) ys) e2 with
      ⟨h, _⟩ | ⟨_, _, hge⟩
    · exact h
    · exfalso
      rw [hpath, hlast] at hge
      linarith
  · intro xs ys e1 e2 hpath hty hacc1 hacc2
    have hge0 : e1.time ≤ lastEventTime (runState [] (xs ++ [e1])) e1.path := by
      rw [hstamp xs e1 hacc1, lastEventTime_cons_self]
    have hge : e1.time ≤
        lastEventTime (runState (runState [] (xs ++ [e1])) ys) e1.path :=
      lastEventTime_run_ge ys _ e1.path e1.time hge0 hty
    rw [hsplit] at hacc2
    rcases handleEvent_cases (runState (runState [] (xs ++ [e1])) ys) e2 with
      ⟨h, _⟩ | ⟨_, _, hw⟩
    · rw [hacc2] at h
      cases h
    · rw [hpath] at hw
      linarith

/-- C8 witness events: two file events for `a.py` arriving within the
window. -/
def e1W : WatchEvent := ⟨"a.py", 2, false, false⟩

/-- Second C8 witness event, within one second of `e1W`. -/
def e2W : WatchEvent := ⟨"a.py", 2, false, false⟩

/-- C8 witness: with an empty history, `e1W` is accepted and `e2W` (same
path, within the window) is dropped. -/
theorem watcher_debounce_witness :
    (e2W.path = e1W.path ∧ accepted (runState [] []) e1W = true ∧
      e2W.time - e1W.time < 1) ∧
    accepted (runState [] ([] ++ e1W :: [])) e2W = false := by
  have hacc : accepted (runState [] []) e1W = true := by
    show accepted [] e1W = true
    unfold accepted handleEvent isDebounced
    rw [if_neg (by decide), if_neg (by decide),
      if_neg (show ¬(e1W.time - lastEventTime [] e1W.path < 1) by
        show ¬((2 : Rat) - 0 < 1)
        rw [sub_zero]
        exact not_lt.mpr one_le_two)]
  have hwin : e2W.time - e1W.time < 1 := by
    show (2 : Rat) - 2 < 1
    rw [sub_self]
    exact zero_lt_one
  exact ⟨⟨rfl, hacc, hwin⟩,
    watcher_debounce.1 [] [] e1W e2W rfl hacc
      (fun k hk => absurd hk (Nat.not_lt_zero k)) hwin⟩


end Embex
